import Mathlib

/-!
Verification of the frame bookkeeping, trigger scheduling and animation
engine of `StimProgram.py` (pystim).  The Python source is shallowly
embedded: time quantities are rationals (seconds multiplied by an integer
frame rate), Python `int()` is truncation toward zero, and the stateful
animation loop becomes explicit state passing.
-/

namespace StimProgram

/-- Python `int()` applied to a rational value: truncation toward zero. -/
def pyInt (q : ℚ) : ℤ := if 0 ≤ q then ⌊q⌋ else ⌈q⌉

/-- `StimDefaults.__init__` time conversion, e.g.
`self.delay = delay * GlobalDefaults[frame_rate]`: seconds times the
integer frame rate, still a (possibly fractional) number of frames. -/
def secondsToFrames (frameRate : ℤ) (sec : ℚ) : ℚ := sec * frameRate

namespace StaticStim

/-- The three timing fields set by `StaticStim.draw_times`:
`start_stim`, `end_stim` and `draw_duration`.  `end_stim` stays rational
because the `force_stop` override assigns the unrounded float. -/
structure DrawTimes where
  start_stim : ℤ
  end_stim : ℚ
  draw_duration : ℤ
deriving Repr, DecidableEq

/-- `StaticStim.draw_times` (src/StimProgram.py:618-639), with the
trigger-list insertion factored out (see `addTriggerFrame`):
`start_stim = int(delay + 0.99)`;
`end_stim = int(duration + start_stim + 0.99)`;
`draw_duration = end_stim - start_stim`; then
`if force_stop != 0: end_stim = force_stop`. -/
def draw_times (delay duration force_stop : ℚ) : DrawTimes :=
  { start_stim := pyInt (delay + 99/100)
    end_stim :=
      if force_stop ≠ 0 then force_stop
      else ((pyInt (duration + (pyInt (delay + 99/100) : ℚ) + 99/100) : ℤ) : ℚ)
    draw_duration :=
      pyInt (duration + (pyInt (delay + 99/100) : ℚ) + 99/100)
        - pyInt (delay + 99/100) }

end StaticStim

lemma pyInt_of_nonneg {q : ℚ} (h : 0 ≤ q) : pyInt q = ⌊q⌋ := by
  simp [pyInt, h]

/-! ## The frame trigger list (`MyWindow.frame_trigger_list`)

A `sortedcontainers.SortedList`, seeded with the sentinel `sys.maxint`
(src/StimProgram.py:241-242).  Every insertion site in the four
`draw_times` implementations follows the same pattern: a membership test,
then `SortedList.add` (ordered insertion).  At the start of each
repetition `main` runs `del MyWindow.frame_trigger_list[:-1]`
(src/StimProgram.py:1843), deleting everything except the last element. -/

/-- `sys.maxint` on a 64-bit CPython 2 build: the sentinel value. -/
def maxint : ℕ := 2 ^ 63 - 1

/-- The initial trigger list: `SortedList()` followed by `add(sys.maxint)`. -/
def initTriggerList : List ℕ := [maxint]

/-- The insertion pattern used at every site (e.g. src/StimProgram.py:627-628):
`if frame not in MyWindow.frame_trigger_list:
MyWindow.frame_trigger_list.add(frame)`. -/
def addTriggerFrame (l : List ℕ) (n : ℕ) : List ℕ :=
  if n ∈ l then l else List.orderedInsert (· ≤ ·) n l

/-- `del MyWindow.frame_trigger_list[:-1]`: keep only the last element. -/
def resetTriggerList (l : List ℕ) : List ℕ := l.drop (l.length - 1)

/-- Invariant of the trigger list: strictly increasing, contains the
sentinel, and every element is at most the sentinel. -/
def TriggerListInv (l : List ℕ) : Prop :=
  l.Sorted (· < ·) ∧ maxint ∈ l ∧ ∀ x ∈ l, x ≤ maxint

lemma addTriggerFrame_inv {l : List ℕ} {n : ℕ} (h : TriggerListInv l)
    (hn : n ≤ maxint) : TriggerListInv (addTriggerFrame l n) := by
  obtain ⟨hsort, hmem, hbound⟩ := h
  unfold addTriggerFrame
  by_cases hc : n ∈ l
  · simpa [hc] using ⟨hsort, hmem, hbound⟩
  · simp only [hc, if_false]
    have hnodup : (List.orderedInsert (· ≤ ·) n l).Nodup := by
      rw [(List.perm_orderedInsert _ n l).nodup_iff]
      exact List.nodup_cons.mpr ⟨hc, hsort.nodup⟩
    have hle : (List.orderedInsert (· ≤ ·) n l).Sorted (· ≤ ·) :=
      List.Sorted.orderedInsert n l hsort.le_of_lt
    refine ⟨hle.lt_of_le hnodup, ?_, ?_⟩
    · exact (List.mem_orderedInsert _).mpr (Or.inr hmem)
    · intro x hx
      rcases (List.mem_orderedInsert _).mp hx with hx | hx
      · exact hx ▸ hn
      · exact hbound x hx

lemma resetTriggerList_eq : ∀ {l : List ℕ}, l.Sorted (· < ·) → maxint ∈ l →
    (∀ x ∈ l, x ≤ maxint) → resetTriggerList l = [maxint]
  | [], _, hm, _ => absurd hm (List.not_mem_nil _)
  | [a], _, hm, _ => by
      simp only [List.mem_singleton] at hm
      simp [resetTriggerList, hm]
  | a :: b :: t, hs, hm, hb => by
      have hmt : maxint ∈ b :: t := by
        rcases List.mem_cons.mp hm with h1 | h1
        · exfalso
          have hab : a < b := (List.sorted_cons.mp hs).1 b (by simp)
          have hbm : b ≤ maxint := hb b (by simp)
          omega
        · exact h1
      have ih := resetTriggerList_eq hs.of_cons hmt
          (fun x hx => hb x (List.mem_cons_of_mem _ hx))
      rw [resetTriggerList] at ih ⊢
      have h1 : (a :: b :: t).length - 1 = t.length + 1 := by simp
      have h2 : (b :: t).length - 1 = t.length := by simp
      rw [h1, List.drop_succ_cons]
      rw [h2] at ih
      exact ih

/-- Python `int()` applied to a real value: truncation toward zero. -/
noncomputable def pyIntR (r : ℝ) : ℤ := if 0 ≤ r then ⌊r⌋ else ⌈r⌉

lemma pyIntR_of_nonneg {r : ℝ} (h : 0 ≤ r) : pyIntR r = ⌊r⌋ := by
  simp [pyIntR, h]

lemma pyIntR_intCast_add {z : ℤ} (h : 0 ≤ z) :
    pyIntR ((z : ℝ) + 99/100) = z := by
  rw [pyIntR_of_nonneg (by positivity)]
  rw [add_comm, Int.floor_add_int]
  norm_num

/-! ## Timing modulation (`StaticStim.gen_timing`, src/StimProgram.py:940-1006)

The per-frame contrast-channel recomputation.  `scipy.signal.square` with
duty 0.5 and `scipy.signal.sawtooth` with width 0.5 are embedded by their
mathematical definitions over the phase fraction of `2π`. -/

/-- `scipy.signal.square(t, duty=0.5)`: `1` on the first half of each `2π`
period, `-1` on the second half. -/
noncomputable def sqWave (t : ℝ) : ℝ :=
  if Int.fract (t / (2 * Real.pi)) < 1/2 then 1 else -1

/-- `scipy.signal.sawtooth(t, width=0.5)`: triangle wave rising from `-1`
to `1` over the first half of each `2π` period and falling back over the
second half. -/
noncomputable def sawWave (t : ℝ) : ℝ :=
  if Int.fract (t / (2 * Real.pi)) < 1/2 then
    -1 + 4 * Int.fract (t / (2 * Real.pi))
  else 3 - 4 * Int.fract (t / (2 * Real.pi))

/-- The `timing` parameter. -/
inductive Timing
  | step
  | sine
  | square
  | sawtooth
  | linear
deriving DecidableEq, Repr

/-- The `intensity_dir` parameter. -/
inductive IntensityDir
  | both
  | single
deriving DecidableEq, Repr

/-- The `fill_mode` parameter. -/
inductive FillMode
  | uniform
  | sine
  | square
  | concentric
  | checkerboard
  | rand
  | image
  | movie
deriving DecidableEq, Repr

/-- The new contrast-channel color computed by `StaticStim.gen_timing`
before unscaling, as a function of `time_fraction = (frame - start_stim) /
draw_duration`.  (`gen_timing` is only invoked with a non-`step` timing;
the `step` case is unreachable and maps to the background.)  Gamma
correction is external (out of scope) and modelled as absent
(`MyWindow.gamma_mon is None`). -/
noncomputable def gen_timing_color (timing : Timing) (dir : IntensityDir)
    (period_mod delta background time_fraction : ℝ) : ℝ :=
  match timing, dir with
  | .sine, .both =>
      Real.sin (period_mod * Real.pi * time_fraction) * delta + background
  | .sine, .single =>
      Real.sin (period_mod * Real.pi * time_fraction - Real.pi / 2) * delta
        + background
  | .square, .both =>
      sqWave (period_mod * Real.pi * time_fraction) * 2 / 2 * delta
        + background
  | .square, .single =>
      sqWave (period_mod * Real.pi * time_fraction) * delta + background
  | .sawtooth, .both =>
      sawWave (period_mod * Real.pi * time_fraction) * 2 / 2 * delta
        + background
  | .sawtooth, .single =>
      sawWave (period_mod * Real.pi * time_fraction) * delta + background
  | .linear, _ => background + delta * (time_fraction * 2 - 1)
  | .step, _ => background

namespace StaticStim

/-- The parameters of a `StaticStim` consulted by `animate`. -/
structure AnimParams where
  fill_mode : FillMode
  timing : Timing
  intensity_dir : IntensityDir
  period_mod : ℝ
  delta : ℝ
  background : ℝ
  phase_speed : ℝ × ℝ
  start_stim : ℤ
  end_stim : ℚ
  draw_duration : ℤ

/-- The mutable per-frame state touched by `StaticStim.animate`: the
texture's contrast-channel color (`self.stim.tex[...]`), the texture phase
(`self.stim.phase`), and a count of completed `self.stim.draw()` calls. -/
structure State where
  tex_color : ℝ
  phase : ℝ × ℝ
  draws : ℕ

/-- `StaticStim.animate` (src/StimProgram.py:641-659): inside the draw
window `[start_stim, end_stim)`, for a non-movie/non-image fill with a
non-step timing first `gen_timing(frame)` rewrites the contrast channel
and `gen_phase()` advances the phase, then the stim is drawn; outside the
window nothing happens at all. -/
noncomputable def animate (p : AnimParams) (frame : ℕ) (s : State) : State :=
  if (p.start_stim : ℚ) ≤ (frame : ℚ) ∧ (frame : ℚ) < p.end_stim then
    let s1 :=
      if p.fill_mode ∉ [FillMode.movie, FillMode.image] ∧
          p.timing ≠ Timing.step then
        { s with
            tex_color :=
              gen_timing_color p.timing p.intensity_dir p.period_mod
                p.delta p.background
                (((frame : ℝ) - (p.start_stim : ℝ)) / (p.draw_duration : ℝ))
            phase := (s.phase.1 + p.phase_speed.1,
                      s.phase.2 + p.phase_speed.2) }
      else s
    { s1 with draws := s1.draws + 1 }
  else s

end StaticStim

namespace MovingStim

/-- The mutable trajectory state owned by one `MovingStim`:
`frame_counter` indexes the position arrays of the current leg (whose
length is `leg_len`), `error_count` is the consecutive-failure counter,
`legs_used` counts completed `gen_pos` calls (so a change measures
regenerations), `draws` counts successful draws, and `log_frames` is
`self.log[1]`. -/
structure MoveState where
  frame_counter : ℕ
  leg_len : ℕ
  error_count : ℕ
  legs_used : ℕ
  draws : ℕ
  log_frames : List ℕ
deriving DecidableEq, Repr

/-- `MovingStim.gen_pos` as it affects the retry state machine
(src/StimProgram.py:1105-1160): reset `frame_counter`, produce fresh
position arrays for the next leg.  `supply k` abstracts the length of the
`k`-th generated leg's arrays (0 models a leg whose array is immediately
exhausted/corrupted). -/
def gen_pos_state (supply : ℕ → ℕ) (s : MoveState) : MoveState :=
  { s with
      frame_counter := 0
      leg_len := supply s.legs_used
      legs_used := s.legs_used + 1 }

/-- Outcome of one `animate(frame)` call: normal return, a propagated
exception (`raise`), or exhaustion of the modelled recursion depth (which
we prove unreachable from a clean state). -/
inductive AnimateResult
  | ok (s : MoveState)
  | raised (s : MoveState)
  | stuck
deriving DecidableEq, Repr

/-- `MovingStim.animate` (src/StimProgram.py:1071-1103).  Inside the draw
window: `get_next_pos()` succeeds iff `frame_counter < leg_len` (otherwise
`IndexError`), a success draws and resets `error_count` to 0; on failure
`error_count` is incremented, re-raised if it reaches 2, and otherwise
`gen_pos()` regenerates the leg, the frame number is logged, and the same
frame is retried recursively.  The Python recursion depth is modelled by
`fuel`. -/
def animate (supply : ℕ → ℕ) (start_stim : ℤ) (end_stim : ℚ) :
    ℕ → ℕ → MoveState → AnimateResult
  | 0, _, _ => .stuck
  | fuel + 1, frame, s =>
    if (start_stim : ℚ) ≤ (frame : ℚ) ∧ (frame : ℚ) < end_stim then
      if s.frame_counter < s.leg_len then
        .ok { s with
                frame_counter := s.frame_counter + 1
                error_count := 0
                draws := s.draws + 1 }
      else
        if s.error_count + 1 = 2 then
          .raised { s with error_count := s.error_count + 1 }
        else
          animate supply start_stim end_stim fuel frame
            { gen_pos_state supply
                { s with error_count := s.error_count + 1 } with
              log_frames := s.log_frames ++ [frame] }
    else .ok s

/-- Python 2 `360 / self.num_dirs` on ints is floor division.  `gen_pos`
adds it to `start_dir` and wraps once at 360
(src/StimProgram.py:1125-1130). -/
noncomputable def advance_dir (num_dirs : ℕ) (d : ℝ) : ℝ :=
  if d + ((360 / num_dirs : ℕ) : ℝ) ≥ 360 then
    d + ((360 / num_dirs : ℕ) : ℝ) - 360
  else d + ((360 / num_dirs : ℕ) : ℝ)

/-- The start direction used by the `k`-th leg (the `k`-th call of
`gen_pos`), starting from `d0` (`start_dir`, possibly overridden by the
global preferred direction). -/
noncomputable def startDirSeq (d0 : ℝ) (num_dirs : ℕ) : ℕ → ℝ
  | 0 => d0
  | k + 1 => advance_dir num_dirs (startDirSeq d0 num_dirs k)

/-- `MovingStim.gen_start_pos` (src/StimProgram.py:1162-1173): position on
the start radius at the given direction. -/
noncomputable def gen_start_pos (start_radius dir : ℝ) : ℝ × ℝ :=
  (start_radius * Real.sin (dir * Real.pi / 180),
   start_radius * Real.cos (dir * Real.pi / 180))

/-- `travel_distance = ((current_x**2 + current_y**2) ** 0.5) * 2`
(src/StimProgram.py:1137) with the current position just set by
`gen_start_pos`. -/
noncomputable def leg_travel_distance (start_radius dir : ℝ) : ℝ :=
  Real.sqrt ((gen_start_pos start_radius dir).1 ^ 2 +
    (gen_start_pos start_radius dir).2 ^ 2) * 2

/-- Per-leg frame count (src/StimProgram.py:1138,1147-1160):
`num_frames = int(travel_distance / speed + 0.99)`, then `move_delay`
off-screen frames are appended. -/
noncomputable def leg_num_frames (start_radius speed dir : ℝ)
    (move_delay : ℕ) : ℤ :=
  pyIntR (leg_travel_distance start_radius dir / speed + 99/100) + move_delay

/-- `MovingStim.gen_pos_array` (src/StimProgram.py:1175-1193): per-frame
coordinates `start + i·(speed·sin θ, speed·cos θ)` for
`i in xrange(num_frames)`. -/
noncomputable def gen_pos_array (speed start_x start_y : ℝ) (num_frames : ℤ)
    (angle : ℝ) : List ℝ × List ℝ :=
  ((List.range num_frames.toNat).map
      (fun i : ℕ => start_x + (i : ℝ) * (speed * Real.sin (angle * Real.pi / 180))),
   (List.range num_frames.toNat).map
      (fun i : ℕ => start_y + (i : ℝ) * (speed * Real.cos (angle * Real.pi / 180))))

/-- The frame window computed by `MovingStim.draw_times`
(src/StimProgram.py:1043-1069): `start_stim = int(delay + 0.99)`; the
first `gen_pos` call fixes `num_frames` from leg 0 at direction `d0`;
`end_stim = int(num_frames * num_dirs + start_stim + 0.99)`; a nonzero
`force_stop` overrides `end_stim`. -/
noncomputable def draw_times (delay start_radius speed d0 : ℝ)
    (move_delay num_dirs : ℕ) (force_stop : ℝ) : ℤ × ℝ :=
  (pyIntR (delay + 99/100),
   if force_stop ≠ 0 then force_stop
   else ((pyIntR
      (((leg_num_frames start_radius speed d0 move_delay * num_dirs : ℤ) : ℝ)
        + ((pyIntR (delay + 99/100) : ℤ) : ℝ) + 99/100) : ℤ) : ℝ))

lemma leg_travel_distance_eq {start_radius : ℝ} (dir : ℝ)
    (h : 0 ≤ start_radius) :
    leg_travel_distance start_radius dir = 2 * start_radius := by
  unfold leg_travel_distance gen_start_pos
  have hsum : (start_radius * Real.sin (dir * Real.pi / 180)) ^ 2 +
      (start_radius * Real.cos (dir * Real.pi / 180)) ^ 2
      = start_radius ^ 2 := by
    rw [mul_pow, mul_pow, ← mul_add, Real.sin_sq_add_cos_sq, mul_one]
  rw [hsum, Real.sqrt_sq h]
  ring

lemma startDirSeq_spec (d0 : ℝ) (N : ℕ)
    (h0 : 0 ≤ d0 ∧ d0 < 360) (k : ℕ) :
    (0 ≤ startDirSeq d0 N k ∧ startDirSeq d0 N k < 360) ∧
    ∃ m : ℕ, d0 + k * ((360 / N : ℕ) : ℝ) = startDirSeq d0 N k + 360 * m := by
  have hstep0 : (0 : ℝ) ≤ ((360 / N : ℕ) : ℝ) := by positivity
  have hstep : ((360 / N : ℕ) : ℝ) ≤ 360 := by
    have : (360 / N : ℕ) ≤ 360 := Nat.div_le_self 360 N
    exact_mod_cast this
  induction k with
  | zero => exact ⟨h0, 0, by simp [startDirSeq]⟩
  | succ k ih =>
    obtain ⟨⟨hlo, hhi⟩, m, hm⟩ := ih
    constructor
    · rw [startDirSeq, advance_dir]
      split_ifs with hc
      · constructor <;> [linarith; linarith]
      · constructor <;> [linarith; linarith]
    · rw [startDirSeq, advance_dir]
      split_ifs with hc
      · refine ⟨m + 1, ?_⟩
        push_cast
        linarith
      · refine ⟨m, ?_⟩
        push_cast
        linarith

end MovingStim

/-- Python `random.Random.randint(lo, hi)`: returns `lo + u` where `u` is
drawn uniformly below `hi - lo + 1`; both endpoints are attainable
(`randint` is inclusive on both ends). -/
def pyRandint (lo hi : ℤ) (u : ℕ) : ℤ := lo + (u % (hi - lo + 1).toNat : ℕ)

namespace RandomlyMovingStim

/-- The data computed by one `RandomlyMovingStim.gen_pos` call
(src/StimProgram.py:1254-1278). -/
structure GenPosResult where
  angle : ℤ
  num_frames : ℤ
  x_array : List ℝ
  y_array : List ℝ

/-- `RandomlyMovingStim.gen_pos`: keep the *current* position as the new
leg's start (`self.get_pos()`), draw `angle = move_random.randint(0, 360)`
(`u` is the next value of the dedicated move-seeded stream),
`num_frames = int(travel_distance / speed + 0.99)` with the configured
`travel_distance`, and fill the position arrays via `gen_pos_array`. -/
noncomputable def gen_pos (travel_distance speed current_x current_y : ℝ)
    (u : ℕ) : GenPosResult :=
  { angle := pyRandint 0 360 u
    num_frames := pyIntR (travel_distance / speed + 99/100)
    x_array := (MovingStim.gen_pos_array speed current_x current_y
      (pyIntR (travel_distance / speed + 99/100))
      ((pyRandint 0 360 u : ℤ) : ℝ)).1
    y_array := (MovingStim.gen_pos_array speed current_x current_y
      (pyIntR (travel_distance / speed + 99/100))
      ((pyRandint 0 360 u : ℤ) : ℝ)).2 }

end RandomlyMovingStim

namespace TableStim

/-- Flag override in the text branch of `TableStim.gen_pos_array`
(src/StimProgram.py:1386-1387): `trigger_list[0] = 1` then
`trigger_list[-1] = 1`.  Flags are the parsed second column. -/
def overrideFlags (flags : List ℤ) : List ℤ :=
  (flags.set 0 1).set (flags.length - 1) 1

/-- `self.trigger_frames` computation (src/StimProgram.py:1415-1419):
`for i in range(len(trigger_list)): if trigger_list[i] == 1:
trigger_frames.append(i)`. -/
def triggerFramesOf (flags : List ℤ) : List ℕ :=
  (List.range flags.length).filter (fun i => flags.getD i 0 == 1)

/-- The per-leg trigger indices of a plain-text table whose stored flags
are `flags`: the stored flags with first and last overridden, then the
positions whose flag equals 1. -/
def textTriggerFrames (flags : List ℤ) : List ℕ :=
  triggerFramesOf (overrideFlags flags)

lemma overrideFlags_length (flags : List ℤ) :
    (overrideFlags flags).length = flags.length := by
  simp [overrideFlags]

lemma overrideFlags_head {flags : List ℤ} (h : flags ≠ []) :
    (overrideFlags flags).getD 0 0 = 1 := by
  have hlen : 0 < flags.length := List.length_pos.mpr h
  have hlt0 : 0 < (flags.set 0 1).length := by simpa using hlen
  unfold overrideFlags
  rcases Nat.eq_zero_or_pos (flags.length - 1) with h0 | h0
  · rw [h0, List.getD_eq_getElem?_getD,
      List.getElem?_set_eq_of_lt (1 : ℤ) hlt0]
    rfl
  · rw [List.getD_eq_getElem?_getD,
      List.getElem?_set_ne (Nat.pos_iff_ne_zero.mp h0),
      List.getElem?_set_eq_of_lt (1 : ℤ) hlen]
    rfl

lemma overrideFlags_last {flags : List ℤ} (h : flags ≠ []) :
    (overrideFlags flags).getD (flags.length - 1) 0 = 1 := by
  have hlen : 0 < flags.length := List.length_pos.mpr h
  have hlt : flags.length - 1 < (flags.set 0 1).length := by
    simp only [List.length_set]
    omega
  unfold overrideFlags
  rw [List.getD_eq_getElem?_getD, List.getElem?_set_eq_of_lt (1 : ℤ) hlt]
  rfl

lemma mem_textTriggerFrames {flags : List ℤ} {i : ℕ} :
    i ∈ textTriggerFrames flags ↔
      i < flags.length ∧ (overrideFlags flags).getD i 0 = 1 := by
  unfold textTriggerFrames triggerFramesOf
  rw [List.mem_filter, List.mem_range, overrideFlags_length]
  simp

end TableStim

/-! ## The run loop (`main`, src/StimProgram.py:1791-1938)

The per-repetition / per-frame loop is embedded as explicit recursion.
The renderer and trigger device are external collaborators; their
invocations are recorded as an event trace.  Stimulus `animate` calls are
abstracted by `throws rep frame stim` (whether that call raises an
unrecovered exception, cf. `MovingStim.animate`), and the polled escape
key by `cancel rep frame`. -/

namespace Main

/-- Renderer / trigger-device events emitted while `main` runs. -/
inductive Ev
  | warmupTrigger (rep : ℕ)
  | warmupFlip (rep : ℕ)
  | animateEv (rep frame stim : ℕ)
  | flipEv (rep frame : ℕ)
  | triggerEv (rep frame : ℕ)
  | finalFlip
deriving DecidableEq, Repr

/-- The repetition during which a (non-final) event was emitted. -/
def evRep : Ev → ℕ
  | .warmupTrigger r => r
  | .warmupFlip r => r
  | .animateEv r _ _ => r
  | .flipEv r _ => r
  | .triggerEv r _ => r
  | .finalFlip => 0

/-- The run configuration consulted by `main`: `protocol_reps`, the
common per-repetition frame count (`max(stim.draw_times())`, identical
across repetitions since the same `stim_list` is re-prepared), the number
of stimuli, `trigger_wait` (already in frames), the rebuilt trigger list,
and the abstracted stimulus-exception and escape-key behaviors. -/
structure Cfg where
  reps : ℕ
  numFrames : ℕ
  nStims : ℕ
  triggerWait : ℕ
  trigList : List ℕ
  throws : ℕ → ℕ → ℕ → Bool
  cancel : ℕ → ℕ → Bool

/-- The loop variables of `main`: the trigger-list cursor `index`,
`MyWindow.should_break`, `count_frames`, and the emitted event trace. -/
structure St where
  trigIndex : ℕ
  shouldBreak : Bool
  countFrames : ℕ
  trace : List Ev
deriving DecidableEq, Repr

/-- `for stim in to_animate: stim.animate(frame)`
(src/StimProgram.py:1865-1866): stims are animated in order; an exception
from one aborts the loop (second component `true`), leaving the later
stims untouched. -/
def animFrom (th : ℕ → ℕ → ℕ → Bool) (rep frame : ℕ) :
    ℕ → ℕ → List Ev × Bool
  | _, 0 => ([], false)
  | i, n + 1 =>
    if th rep frame i then ([], true)
    else
      ((Ev.animateEv rep frame i) ::
        (animFrom th rep frame (i + 1) n).1,
       (animFrom th rep frame (i + 1) n).2)

/-- One iteration of the frame loop (src/StimProgram.py:1864-1886):
animate every stim, `win.flip()`, fire a trigger if the frame equals
`frame_trigger_list[index]` (the sentinel keeps the Python index in
range, so the out-of-range default here can never equal a frame), poll
the escape key, and handle the inner break (recording
`count_frames = frame + 1`).  Returns (state, raised, broke). -/
def runFrame (C : Cfg) (rep frame : ℕ) (st : St) : St × Bool × Bool :=
  let anim := animFrom C.throws rep frame 0 C.nStims
  if anim.2 then ({ st with trace := st.trace ++ anim.1 }, true, false)
  else
    let st1 :=
      { st with trace := st.trace ++ anim.1 ++ [Ev.flipEv rep frame] }
    let st2 :=
      if C.trigList.getD st1.trigIndex maxint = frame then
        { st1 with
            trace := st1.trace ++ [Ev.triggerEv rep frame]
            trigIndex := st1.trigIndex + 1 }
      else st1
    let st3 :=
      if C.cancel rep frame then { st2 with shouldBreak := true } else st2
    if st3.shouldBreak then ({ st3 with countFrames := frame + 1 }, false, true)
    else (st3, false, false)

/-- Outcome of one repetition's frame loop. -/
inductive RepResult
  | completed (st : St)
  | broke (st : St)
  | raised (st : St)
deriving DecidableEq, Repr

/-- The state carried by a `RepResult`. -/
def RepResult.st : RepResult → St
  | .completed s => s
  | .broke s => s
  | .raised s => s

/-- `for frame in xrange(num_frames)` from frame index `frame` with
`n` frames remaining. -/
def runFrames (C : Cfg) (rep : ℕ) : ℕ → ℕ → St → RepResult
  | _, 0, st => .completed st
  | frame, n + 1, st =>
    match runFrame C rep frame st with
    | (st1, true, _) => .raised st1
    | (st1, false, true) => .broke st1
    | (st1, false, false) => runFrames C rep (frame + 1) n st1

/-- The warm-up flips before the frame loop (src/StimProgram.py:1849-1856):
if `trigger_wait` is nonzero a trigger is scheduled on the first flip;
one flip always happens, plus `trigger_wait - 1` more if nonzero. -/
def warmupEvs (C : Cfg) (rep : ℕ) : List Ev :=
  (if C.triggerWait ≠ 0 then [Ev.warmupTrigger rep] else []) ++
    Ev.warmupFlip rep ::
      (if C.triggerWait ≠ 0 then
        List.replicate (C.triggerWait - 1) (Ev.warmupFlip rep)
      else [])

/-- One repetition (body of `for x in range(reps)`): warm-up flips, reset
the trigger cursor (`index = 0`), then the frame loop.  (`count_frames`
and `should_break` are *not* reset per repetition.) -/
def runRep (C : Cfg) (rep : ℕ) (st : St) : RepResult :=
  runFrames C rep 0 C.numFrames
    { st with trigIndex := 0, trace := st.trace ++ warmupEvs C rep }

/-- The result of `main`: `count_reps`, `count_frames`, the emitted
events, and whether the run aborted with an error status. -/
structure MainRes where
  count_reps : ℕ
  count_frames : ℕ
  trace : List Ev
  error : Bool
deriving DecidableEq, Repr

/-- The repetition loop inside the `try` (src/StimProgram.py:1816-1901):
an exception returns immediately with the `error` status (skipping
everything after the loop); an inner break breaks the outer loop before
`count_reps += 1`; a completed repetition increments `count_reps`. -/
def runReps (C : Cfg) : ℕ → ℕ → St → ℕ → MainRes
  | _, 0, st, cr => ⟨cr, st.countFrames, st.trace, false⟩
  | rep, n + 1, st, cr =>
    match runRep C rep st with
    | .raised st1 => ⟨cr, st1.countFrames, st1.trace, true⟩
    | .broke st1 => ⟨cr, st1.countFrames, st1.trace, false⟩
    | .completed st1 => runReps C (rep + 1) n st1 (cr + 1)

/-- `main` (src/StimProgram.py:1791-1938): run the repetitions; on the
error path `return str(e), 'error', None` happens *before* the final
`MyWindow.win.flip()`, so only non-error exits append the final flip. -/
def pymain (C : Cfg) : MainRes :=
  let res := runReps C 0 C.reps ⟨0, false, 0, []⟩ 0
  if res.error then res
  else { res with trace := res.trace ++ [Ev.finalFlip] }

lemma animFrom_mem (th : ℕ → ℕ → ℕ → Bool) (rep frame : ℕ) :
    ∀ n i, ∀ e ∈ (animFrom th rep frame i n).1,
      ∃ j, e = Ev.animateEv rep frame j := by
  intro n
  induction n with
  | zero =>
    intro i e he
    simp [animFrom] at he
  | succ n ih =>
    intro i e he
    rw [animFrom] at he
    by_cases hth : th rep frame i
    · rw [if_pos hth] at he
      simp at he
    · rw [if_neg hth] at he
      simp only [List.mem_cons] at he
      rcases he with he | he
      · exact ⟨i, he⟩
      · exact ih (i + 1) e he

lemma animFrom_no_throw (th : ℕ → ℕ → ℕ → Bool) (rep frame : ℕ) :
    ∀ n i, (∀ j, th rep frame j = false) →
      (animFrom th rep frame i n).2 = false := by
  intro n
  induction n with
  | zero => intro i _; simp [animFrom]
  | succ n ih =>
    intro i h
    rw [animFrom]
    simp only [h i, if_false]
    exact ih (i + 1) h

lemma runFrame_trace_cases (C : Cfg) (rep frame : ℕ) (st : St) :
    ∃ T, (runFrame C rep frame st).1.trace =
        st.trace ++ (animFrom C.throws rep frame 0 C.nStims).1 ++ T ∧
      (T = [] ∨ T = [Ev.flipEv rep frame] ∨
        T = [Ev.flipEv rep frame, Ev.triggerEv rep frame]) := by
  by_cases h1 : (animFrom C.throws rep frame 0 C.nStims).2
  · exact ⟨[], by simp [runFrame, h1], Or.inl rfl⟩
  · by_cases h2 : C.trigList[st.trigIndex]?.getD maxint = frame
    · refine ⟨[Ev.flipEv rep frame, Ev.triggerEv rep frame], ?_,
        Or.inr (Or.inr rfl)⟩
      by_cases h3 : C.cancel rep frame
      · simp [runFrame, h1, h2, h3]
      · by_cases h4 : st.shouldBreak <;> simp [runFrame, h1, h2, h3, h4]
    · refine ⟨[Ev.flipEv rep frame], ?_, Or.inr (Or.inl rfl)⟩
      by_cases h3 : C.cancel rep frame
      · simp [runFrame, h1, h2, h3]
      · by_cases h4 : st.shouldBreak <;> simp [runFrame, h1, h2, h3, h4]

lemma runFrame_trace_shape (C : Cfg) (rep frame : ℕ) (st : St) :
    ∃ evs, (runFrame C rep frame st).1.trace = st.trace ++ evs ∧
      ∀ e ∈ evs, evRep e = rep ∧ e ≠ Ev.finalFlip := by
  obtain ⟨T, hT, hcases⟩ := runFrame_trace_cases C rep frame st
  refine ⟨(animFrom C.throws rep frame 0 C.nStims).1 ++ T, by simp [hT], ?_⟩
  intro e he
  rcases List.mem_append.mp he with he | he
  · obtain ⟨j, hj⟩ := animFrom_mem C.throws rep frame C.nStims 0 e he
    subst hj
    exact ⟨rfl, by simp⟩
  · rcases hcases with h | h | h <;> subst h
    · simp at he
    · simp only [List.mem_singleton] at he
      subst he
      exact ⟨rfl, by simp⟩
    · simp only [List.mem_cons, List.mem_singleton, List.not_mem_nil,
        or_false] at he
      rcases he with rfl | rfl
      · exact ⟨rfl, by simp⟩
      · exact ⟨rfl, by simp⟩

lemma runFrame_clean (C : Cfg) (rep frame : ℕ) (st : St)
    (hth : ∀ i, C.throws rep frame i = false)
    (hc : C.cancel rep frame = false) (hsb : st.shouldBreak = false) :
    ∃ idx, runFrame C rep frame st =
      (⟨idx, false, st.countFrames, (runFrame C rep frame st).1.trace⟩,
        false, false) := by
  have h1 : (animFrom C.throws rep frame 0 C.nStims).2 = false :=
    animFrom_no_throw C.throws rep frame C.nStims 0 hth
  by_cases h2 : C.trigList[st.trigIndex]?.getD maxint = frame
  · exact ⟨st.trigIndex + 1, by simp [runFrame, h1, h2, hc, hsb]⟩
  · exact ⟨st.trigIndex, by simp [runFrame, h1, h2, hc, hsb]⟩

lemma runFrame_cancel (C : Cfg) (rep frame : ℕ) (st : St)
    (hth : ∀ i, C.throws rep frame i = false)
    (hc : C.cancel rep frame = true) :
    ∃ idx, runFrame C rep frame st =
      (⟨idx, true, frame + 1, (runFrame C rep frame st).1.trace⟩,
        false, true) := by
  have h1 : (animFrom C.throws rep frame 0 C.nStims).2 = false :=
    animFrom_no_throw C.throws rep frame C.nStims 0 hth
  by_cases h2 : C.trigList[st.trigIndex]?.getD maxint = frame
  · exact ⟨st.trigIndex + 1, by simp [runFrame, h1, h2, hc]⟩
  · exact ⟨st.trigIndex, by simp [runFrame, h1, h2, hc]⟩

lemma warmupEvs_mem (C : Cfg) (rep : ℕ) :
    ∀ e ∈ warmupEvs C rep, evRep e = rep ∧ e ≠ Ev.finalFlip := by
  intro e he
  rw [warmupEvs] at he
  by_cases h : C.triggerWait ≠ 0 <;> simp [h] at he
  · rcases he with rfl | rfl | ⟨-, rfl⟩
    · exact ⟨rfl, by simp⟩
    · exact ⟨rfl, by simp⟩
    · exact ⟨rfl, by simp⟩
  · subst he
    exact ⟨rfl, by simp⟩

lemma runFrames_clean (C : Cfg) (rep : ℕ)
    (hth : ∀ g i, C.throws rep g i = false)
    (hcan : ∀ g, C.cancel rep g = false) :
    ∀ n frame st, st.shouldBreak = false →
      ∃ idx evs, runFrames C rep frame n st =
        .completed ⟨idx, false, st.countFrames, st.trace ++ evs⟩ ∧
        ∀ e ∈ evs, evRep e = rep ∧ e ≠ Ev.finalFlip := by
  intro n
  induction n with
  | zero =>
    intro frame st hsb
    refine ⟨st.trigIndex, [], ?_, by simp⟩
    rw [runFrames]
    cases st
    simp_all
  | succ n ih =>
    intro frame st hsb
    obtain ⟨idx1, hrf⟩ := runFrame_clean C rep frame st (hth frame) (hcan frame) hsb
    obtain ⟨evs1, htr, hmem1⟩ := runFrame_trace_shape C rep frame st
    rw [runFrames, hrf]
    dsimp only
    obtain ⟨idx2, evs2, hrec, hmem2⟩ := ih (frame + 1)
      ⟨idx1, false, st.countFrames, (runFrame C rep frame st).1.trace⟩ rfl
    rw [hrec]
    refine ⟨idx2, evs1 ++ evs2, ?_, ?_⟩
    · dsimp only at htr ⊢
      rw [htr]
      simp [List.append_assoc]
    · intro e he
      rcases List.mem_append.mp he with h | h
      exacts [hmem1 e h, hmem2 e h]

lemma runFrames_cancel (C : Cfg) (rep : ℕ)
    (hth : ∀ g i, C.throws rep g i = false) (f : ℕ)
    (hbef : ∀ g, g < f → C.cancel rep g = false)
    (hcan : C.cancel rep f = true) :
    ∀ n frame st, st.shouldBreak = false → frame ≤ f → f < frame + n →
      ∃ idx evs, runFrames C rep frame n st =
        .broke ⟨idx, true, f + 1, st.trace ++ evs⟩ ∧
        ∀ e ∈ evs, evRep e = rep ∧ e ≠ Ev.finalFlip := by
  intro n
  induction n with
  | zero =>
    intro frame st hsb hle hlt
    omega
  | succ n ih =>
    intro frame st hsb hle hlt
    by_cases heq : frame = f
    · subst heq
      obtain ⟨idx1, hrf⟩ := runFrame_cancel C rep frame st (hth frame) hcan
      obtain ⟨evs1, htr, hmem1⟩ := runFrame_trace_shape C rep frame st
      rw [runFrames, hrf]
      dsimp only
      exact ⟨idx1, evs1, by rw [htr], hmem1⟩
    · have hlt2 : frame < f := lt_of_le_of_ne hle heq
      obtain ⟨idx1, hrf⟩ := runFrame_clean C rep frame st (hth frame)
        (hbef frame hlt2) hsb
      obtain ⟨evs1, htr, hmem1⟩ := runFrame_trace_shape C rep frame st
      rw [runFrames, hrf]
      dsimp only
      obtain ⟨idx2, evs2, hrec, hmem2⟩ := ih (frame + 1)
        ⟨idx1, false, st.countFrames, (runFrame C rep frame st).1.trace⟩ rfl
        (by omega) (by omega)
      rw [hrec]
      refine ⟨idx2, evs1 ++ evs2, ?_, ?_⟩
      · dsimp only at htr ⊢
        rw [htr]
        simp [List.append_assoc]
      · intro e he
        rcases List.mem_append.mp he with h | h
        exacts [hmem1 e h, hmem2 e h]

lemma runRep_clean (C : Cfg) (rep : ℕ) (st : St)
    (hth : ∀ g i, C.throws rep g i = false)
    (hcan : ∀ g, C.cancel rep g = false) (hsb : st.shouldBreak = false) :
    ∃ idx evs, runRep C rep st =
      .completed ⟨idx, false, st.countFrames, st.trace ++ evs⟩ ∧
      ∀ e ∈ evs, evRep e = rep ∧ e ≠ Ev.finalFlip := by
  obtain ⟨idx, evs, hrun, hmem⟩ := runFrames_clean C rep hth hcan C.numFrames 0
    { st with trigIndex := 0, trace := st.trace ++ warmupEvs C rep } hsb
  refine ⟨idx, warmupEvs C rep ++ evs, ?_, ?_⟩
  · rw [runRep, hrun]
    simp [List.append_assoc]
  · intro e he
    rcases List.mem_append.mp he with h | h
    exacts [warmupEvs_mem C rep e h, hmem e h]

lemma runRep_cancel (C : Cfg) (rep : ℕ) (st : St) (f : ℕ)
    (hth : ∀ g i, C.throws rep g i = false)
    (hbef : ∀ g, g < f → C.cancel rep g = false)
    (hcan : C.cancel rep f = true) (hsb : st.shouldBreak = false)
    (hf : f < C.numFrames) :
    ∃ idx evs, runRep C rep st =
      .broke ⟨idx, true, f + 1, st.trace ++ evs⟩ ∧
      ∀ e ∈ evs, evRep e = rep ∧ e ≠ Ev.finalFlip := by
  obtain ⟨idx, evs, hrun, hmem⟩ := runFrames_cancel C rep hth f hbef hcan
    C.numFrames 0 { st with trigIndex := 0, trace := st.trace ++ warmupEvs C rep }
    hsb (by omega) (by omega)
  refine ⟨idx, warmupEvs C rep ++ evs, ?_, ?_⟩
  · rw [runRep, hrun]
    simp [List.append_assoc]
  · intro e he
    rcases List.mem_append.mp he with h | h
    exacts [warmupEvs_mem C rep e h, hmem e h]

lemma runFrames_trace_shape (C : Cfg) (rep : ℕ) :
    ∀ n frame st, ∃ evs,
      (runFrames C rep frame n st).st.trace = st.trace ++ evs ∧
      ∀ e ∈ evs, evRep e = rep ∧ e ≠ Ev.finalFlip := by
  intro n
  induction n with
  | zero =>
    intro frame st
    exact ⟨[], by simp [runFrames, RepResult.st], by simp⟩
  | succ n ih =>
    intro frame st
    obtain ⟨evs1, htr, hmem1⟩ := runFrame_trace_shape C rep frame st
    rw [runFrames]
    rcases hr : runFrame C rep frame st with ⟨st1, raised, broke⟩
    rw [hr] at htr
    cases raised
    · cases broke
      · dsimp only
        obtain ⟨evs2, htr2, hmem2⟩ := ih (frame + 1) st1
        refine ⟨evs1 ++ evs2, ?_, ?_⟩
        · rw [htr2, htr]
          simp [List.append_assoc]
        · intro e he
          rcases List.mem_append.mp he with h | h
          exacts [hmem1 e h, hmem2 e h]
      · exact ⟨evs1, htr, hmem1⟩
    · exact ⟨evs1, htr, hmem1⟩

lemma runRep_trace_shape (C : Cfg) (rep : ℕ) (st : St) :
    ∃ evs, (runRep C rep st).st.trace = st.trace ++ evs ∧
      ∀ e ∈ evs, evRep e = rep ∧ e ≠ Ev.finalFlip := by
  obtain ⟨evs, htr, hmem⟩ := runFrames_trace_shape C rep C.numFrames 0
    { st with trigIndex := 0, trace := st.trace ++ warmupEvs C rep }
  refine ⟨warmupEvs C rep ++ evs, ?_, ?_⟩
  · rw [runRep, htr]
    simp [List.append_assoc]
  · intro e he
    rcases List.mem_append.mp he with h | h
    exacts [warmupEvs_mem C rep e h, hmem e h]

lemma runReps_no_finalFlip (C : Cfg) :
    ∀ n rep st cr, ∃ evs, (runReps C rep n st cr).trace = st.trace ++ evs ∧
      ∀ e ∈ evs, e ≠ Ev.finalFlip := by
  intro n
  induction n with
  | zero =>
    intro rep st cr
    exact ⟨[], by simp [runReps], by simp⟩
  | succ n ih =>
    intro rep st cr
    obtain ⟨evs1, htr, hmem1⟩ := runRep_trace_shape C rep st
    rw [runReps]
    rcases hr : runRep C rep st with st1 | st1 | st1 <;> rw [hr] at htr
    · dsimp only
      obtain ⟨evs2, htr2, hmem2⟩ := ih (rep + 1) st1 (cr + 1)
      refine ⟨evs1 ++ evs2, ?_, ?_⟩
      · rw [htr2]
        dsimp only [RepResult.st] at htr
        rw [htr]
        simp [List.append_assoc]
      · intro e he
        rcases List.mem_append.mp he with h | h
        exacts [fun hfe => (hmem1 e h).2 hfe, fun hfe => (hmem2 e h) hfe]
    · dsimp only [RepResult.st] at htr
      exact ⟨evs1, htr, fun e he => (hmem1 e he).2⟩
    · dsimp only [RepResult.st] at htr
      exact ⟨evs1, htr, fun e he => (hmem1 e he).2⟩

lemma runFrame_raised_eq (C : Cfg) (rep frame : ℕ) (st : St) :
    (runFrame C rep frame st).2.1 = (animFrom C.throws rep frame 0 C.nStims).2 := by
  by_cases h1 : (animFrom C.throws rep frame 0 C.nStims).2
  · simp [runFrame, h1]
  · by_cases h2 : C.trigList[st.trigIndex]?.getD maxint = frame <;>
      by_cases h3 : C.cancel rep frame <;>
        by_cases h4 : st.shouldBreak <;>
          simp [runFrame, h1, h2, h3, h4]

lemma runReps_cancel_scenario (C : Cfg) (k f : ℕ)
    (hth : ∀ r g i, C.throws r g i = false)
    (hf : f < C.numFrames)
    (hbefore : ∀ r g, r < k → C.cancel r g = false)
    (hsame : ∀ g, g < f → C.cancel k g = false)
    (hcan : C.cancel k f = true) :
    ∀ n rep st cr, rep ≤ k → k < rep + n → st.shouldBreak = false →
      ∃ evs, runReps C rep n st cr =
        ⟨cr + (k - rep), f + 1, st.trace ++ evs, false⟩ ∧
        ∀ e ∈ evs, evRep e ≤ k ∧ e ≠ Ev.finalFlip := by
  intro n
  induction n with
  | zero =>
    intro rep st cr hle hlt hsb
    omega
  | succ n ih =>
    intro rep st cr hle hlt hsb
    by_cases heq : rep = k
    · subst heq
      obtain ⟨idx, evs, hrun, hmem⟩ := runRep_cancel C rep st f (hth rep)
        hsame hcan hsb hf
      rw [runReps, hrun]
      dsimp only
      refine ⟨evs, ?_, fun e he => ⟨(hmem e he).1.le, (hmem e he).2⟩⟩
      congr 1
      omega
    · have hlt2 : rep < k := lt_of_le_of_ne hle heq
      obtain ⟨idx, evs, hrun, hmem⟩ := runRep_clean C rep st (hth rep)
        (fun g => hbefore rep g hlt2) hsb
      rw [runReps, hrun]
      dsimp only
      obtain ⟨evs2, hrec, hmem2⟩ := ih (rep + 1)
        ⟨idx, false, st.countFrames, st.trace ++ evs⟩ (cr + 1)
        (by omega) (by omega) rfl
      rw [hrec]
      refine ⟨evs ++ evs2, ?_, ?_⟩
      · have harith : cr + 1 + (k - (rep + 1)) = cr + (k - rep) := by omega
        rw [harith]
        simp [List.append_assoc]
      · intro e he
        rcases List.mem_append.mp he with h | h
        · exact ⟨(hmem e h).1.le.trans hlt2.le, (hmem e h).2⟩
        · exact hmem2 e h

end Main

end StimProgram

section Claims
open StimProgram

/-- C1 (counterexample): with frame rate 10 and delay = duration = 1/2000 s,
the product is 1/200 frame; the code computes `start_stim = int(0.005 + 0.99)
= 0` while `ceil(0.005) = 1`, and `end_stim = start_stim` even though the
duration is positive. -/
theorem C1_counterexample :
    (StaticStim.draw_times (secondsToFrames 10 (1/2000))
        (secondsToFrames 10 (1/2000)) 0).start_stim ≠ ⌈(1/2000 : ℚ) * 10⌉ ∧
    ¬ ((0 : ℚ) < 1/2000 →
        ((StaticStim.draw_times (secondsToFrames 10 (1/2000))
            (secondsToFrames 10 (1/2000)) 0).start_stim : ℚ) <
          (StaticStim.draw_times (secondsToFrames 10 (1/2000))
            (secondsToFrames 10 (1/2000)) 0).end_stim) := by
  have hc : ⌈(1/200 : ℚ)⌉ = 1 := by
    rw [Int.ceil_eq_iff]
    constructor <;> norm_num
  norm_num [StaticStim.draw_times, pyInt, secondsToFrames, hc]

/-- C1 (amended): for a static stimulus with delay `d` ≥ 0, duration `u` ≥ 0
(seconds), frame rate `r` > 0 and `force_stop = 0`, `draw_times` computes
`startFrame = ⌊d·r + 0.99⌋` and `endFrame = startFrame + ⌊u·r + 0.99⌋`
(both integers; this equals `ceil` except when the fractional part of the
product lies in (0, 0.01]), and `endFrame > startFrame` whenever
`u·r ≥ 1/100`. -/
theorem C1_amended (r : ℤ) (d u : ℚ) (hr : 0 < r) (hd : 0 ≤ d) (hu : 0 ≤ u) :
    (StaticStim.draw_times (secondsToFrames r d) (secondsToFrames r u) 0).start_stim
        = ⌊d * r + 99/100⌋ ∧
    (StaticStim.draw_times (secondsToFrames r d) (secondsToFrames r u) 0).end_stim
        = ((⌊d * r + 99/100⌋ + ⌊u * r + 99/100⌋ : ℤ) : ℚ) ∧
    ((1/100 : ℚ) ≤ u * r →
      ((StaticStim.draw_times (secondsToFrames r d) (secondsToFrames r u) 0).start_stim : ℚ) <
        (StaticStim.draw_times (secondsToFrames r d) (secondsToFrames r u) 0).end_stim) := by
  have hr' : (0 : ℚ) ≤ (r : ℚ) := by exact_mod_cast le_of_lt hr
  have hdr : (0 : ℚ) ≤ d * r := mul_nonneg hd hr'
  have hur : (0 : ℚ) ≤ u * r := mul_nonneg hu hr'
  have hs : pyInt (d * r + 99/100) = ⌊d * r + 99/100⌋ :=
    pyInt_of_nonneg (by linarith)
  have hsnn : (0 : ℚ) ≤ ((⌊d * r + 99/100⌋ : ℤ) : ℚ) := by
    have : (0 : ℤ) ≤ ⌊d * r + 99/100⌋ := Int.floor_nonneg.mpr (by linarith)
    exact_mod_cast this
  have he : pyInt (u * r + (pyInt (d * r + 99/100) : ℚ) + 99/100)
      = ⌊d * r + 99/100⌋ + ⌊u * r + 99/100⌋ := by
    rw [hs, pyInt_of_nonneg (by linarith)]
    rw [show u * r + (⌊d * r + 99/100⌋ : ℚ) + 99/100
        = (u * r + 99/100) + (⌊d * r + 99/100⌋ : ℚ) by ring]
    rw [Int.floor_add_int]
    ring
  refine ⟨?_, ?_, ?_⟩
  · simpa only [StaticStim.draw_times, secondsToFrames] using hs
  · simp only [StaticStim.draw_times, secondsToFrames]
    rw [if_neg (by simp)]
    rw [he]
  · intro hlb
    simp only [StaticStim.draw_times, secondsToFrames]
    rw [if_neg (by simp), he, hs]
    have h1 : (1 : ℤ) ≤ ⌊u * r + 99/100⌋ := by
      apply Int.le_floor.mpr; push_cast; linarith
    have h1' : (1 : ℚ) ≤ ((⌊u * r + 99/100⌋ : ℤ) : ℚ) := by exact_mod_cast h1
    push_cast
    linarith

/-- C1 witness. -/
theorem C1_amended_witness :
    (StaticStim.draw_times (secondsToFrames 10 (1/2)) (secondsToFrames 10 (1/2)) 0).start_stim
        = ⌊(1/2 : ℚ) * 10 + 99/100⌋ ∧
    (StaticStim.draw_times (secondsToFrames 10 (1/2)) (secondsToFrames 10 (1/2)) 0).end_stim
        = ((⌊(1/2 : ℚ) * 10 + 99/100⌋ + ⌊(1/2 : ℚ) * 10 + 99/100⌋ : ℤ) : ℚ) ∧
    ((1/100 : ℚ) ≤ (1/2) * 10 →
      ((StaticStim.draw_times (secondsToFrames 10 (1/2)) (secondsToFrames 10 (1/2)) 0).start_stim : ℚ) <
        (StaticStim.draw_times (secondsToFrames 10 (1/2)) (secondsToFrames 10 (1/2)) 0).end_stim) :=
  C1_amended 10 (1/2) (1/2) (by norm_num) (by norm_num) (by norm_num)

/-- C3: the trigger-frame list never contains a duplicate, is strictly
increasing, always contains the sentinel (`sys.maxint`, at least any valid
frame index), the per-repetition reset `del frame_trigger_list[:-1]` keeps
exactly the sentinel, and the shared insertion pattern (membership check
then add, `addTriggerFrame`) preserves all of this. -/
theorem C3_trigger_list_invariant (l : List ℕ) (n : ℕ)
    (h : TriggerListInv l) (hn : n ≤ maxint) :
    TriggerListInv initTriggerList ∧
    TriggerListInv (addTriggerFrame l n) ∧
    (addTriggerFrame l n).Nodup ∧
    maxint ∈ addTriggerFrame l n ∧
    resetTriggerList l = [maxint] := by
  have hadd := addTriggerFrame_inv h hn
  refine ⟨?_, hadd, hadd.1.nodup, hadd.2.1, ?_⟩
  · refine ⟨List.sorted_singleton _, List.mem_singleton_self _, ?_⟩
    intro x hx
    simp only [initTriggerList, List.mem_singleton] at hx
    exact hx.le
  · exact resetTriggerList_eq h.1 h.2.1 h.2.2

/-- C3 witness: the initial list with frame 5 inserted. -/
theorem C3_trigger_list_invariant_witness :
    TriggerListInv initTriggerList ∧
    TriggerListInv (addTriggerFrame initTriggerList 5) ∧
    (addTriggerFrame initTriggerList 5).Nodup ∧
    maxint ∈ addTriggerFrame initTriggerList 5 ∧
    resetTriggerList initTriggerList = [maxint] :=
  C3_trigger_list_invariant initTriggerList 5
    ⟨List.sorted_singleton _, List.mem_singleton_self _, by
      intro x hx
      simp only [initTriggerList, List.mem_singleton] at hx
      exact hx.le⟩
    (by norm_num [maxint])

/-- C6: for a plain-text table with stored flags `flags` (nonempty), the
first and last positions are trigger-flagged regardless of their stored
value, the per-leg trigger indices are exactly the positions whose
(possibly overridden) flag equals 1, and the table
`[("10",1),("20",0),("30",1)]` yields trigger indices `[0, 2]`. -/
theorem C6_table_triggers (flags : List ℤ) (h : flags ≠ []) :
    0 ∈ TableStim.textTriggerFrames flags ∧
    flags.length - 1 ∈ TableStim.textTriggerFrames flags ∧
    (∀ i : ℕ, i ∈ TableStim.textTriggerFrames flags ↔
      i < flags.length ∧ (TableStim.overrideFlags flags).getD i 0 = 1) ∧
    TableStim.textTriggerFrames [1, 0, 1] = [0, 2] := by
  have hlen : 0 < flags.length := List.length_pos.mpr h
  refine ⟨?_, ?_, fun i => TableStim.mem_textTriggerFrames, ?_⟩
  · exact TableStim.mem_textTriggerFrames.mpr
      ⟨hlen, TableStim.overrideFlags_head h⟩
  · exact TableStim.mem_textTriggerFrames.mpr
      ⟨by omega, TableStim.overrideFlags_last h⟩
  · rfl

/-- C6 witness: the three-row table from the spec. -/
theorem C6_table_triggers_witness :
    0 ∈ TableStim.textTriggerFrames [1, 0, 1] ∧
    ([1, 0, 1] : List ℤ).length - 1 ∈ TableStim.textTriggerFrames [1, 0, 1] ∧
    (∀ i : ℕ, i ∈ TableStim.textTriggerFrames [1, 0, 1] ↔
      i < ([1, 0, 1] : List ℤ).length ∧
        (TableStim.overrideFlags [1, 0, 1]).getD i 0 = 1) ∧
    TableStim.textTriggerFrames [1, 0, 1] = [0, 2] :=
  C6_table_triggers [1, 0, 1] (by simp)

/-- C2: inside the draw window, starting from a clean failure counter:
a successful `get_next_pos` draws and keeps the counter at zero with no
regeneration; a failure regenerates the leg exactly once (`legs_used`
rises by exactly 1) and retries the same frame, a successful retry
resetting the counter to zero; a second consecutive failure re-raises the
exception (result `raised`) instead of regenerating again. -/
theorem C2_retry_once (supply : ℕ → ℕ) (start_stim : ℤ) (end_stim : ℚ)
    (fuel frame : ℕ) (s : MovingStim.MoveState)
    (h0 : s.error_count = 0)
    (hin : (start_stim : ℚ) ≤ (frame : ℚ) ∧ (frame : ℚ) < end_stim) :
    (s.frame_counter < s.leg_len →
      MovingStim.animate supply start_stim end_stim (fuel + 1) frame s =
        .ok { s with
                frame_counter := s.frame_counter + 1
                error_count := 0
                draws := s.draws + 1 }) ∧
    (¬ s.frame_counter < s.leg_len → 0 < supply s.legs_used →
      MovingStim.animate supply start_stim end_stim (fuel + 2) frame s =
        .ok { frame_counter := 1
              leg_len := supply s.legs_used
              error_count := 0
              legs_used := s.legs_used + 1
              draws := s.draws + 1
              log_frames := s.log_frames ++ [frame] }) ∧
    (¬ s.frame_counter < s.leg_len → supply s.legs_used = 0 →
      MovingStim.animate supply start_stim end_stim (fuel + 2) frame s =
        .raised { frame_counter := 0
                  leg_len := 0
                  error_count := 2
                  legs_used := s.legs_used + 1
                  draws := s.draws
                  log_frames := s.log_frames ++ [frame] }) := by
  refine ⟨?_, ?_, ?_⟩
  · intro hlt
    rw [MovingStim.animate, if_pos hin, if_pos hlt]
  · intro hge hpos
    rw [MovingStim.animate, if_pos hin, if_neg hge, h0]
    rw [if_neg (by omega)]
    rw [MovingStim.animate, if_pos hin]
    rw [if_pos (by simpa [MovingStim.gen_pos_state] using hpos)]
    simp [MovingStim.gen_pos_state]
  · intro hge hzero
    rw [MovingStim.animate, if_pos hin, if_neg hge, h0]
    rw [if_neg (by omega)]
    rw [MovingStim.animate, if_pos hin]
    rw [if_neg (by simp [MovingStim.gen_pos_state, hzero])]
    simp [MovingStim.gen_pos_state, hzero]

/-- C2 witness: window `[0, 10)`, frame 3, clean counter, current leg of
length 5 already exhausted at index 5, regenerated legs of length 5. -/
theorem C2_retry_once_witness :
    ((⟨5, 5, 0, 1, 5, []⟩ : MovingStim.MoveState).frame_counter <
        (⟨5, 5, 0, 1, 5, []⟩ : MovingStim.MoveState).leg_len →
      MovingStim.animate (fun _ => 5) 0 10 (0 + 1) 3 ⟨5, 5, 0, 1, 5, []⟩ =
        .ok { (⟨5, 5, 0, 1, 5, []⟩ : MovingStim.MoveState) with
                frame_counter := 5 + 1
                error_count := 0
                draws := 5 + 1 }) ∧
    (¬ (⟨5, 5, 0, 1, 5, []⟩ : MovingStim.MoveState).frame_counter <
        (⟨5, 5, 0, 1, 5, []⟩ : MovingStim.MoveState).leg_len →
      0 < (fun _ => 5) 1 →
      MovingStim.animate (fun _ => 5) 0 10 (0 + 2) 3 ⟨5, 5, 0, 1, 5, []⟩ =
        .ok { frame_counter := 1
              leg_len := 5
              error_count := 0
              legs_used := 1 + 1
              draws := 5 + 1
              log_frames := [] ++ [3] }) ∧
    (¬ (⟨5, 5, 0, 1, 5, []⟩ : MovingStim.MoveState).frame_counter <
        (⟨5, 5, 0, 1, 5, []⟩ : MovingStim.MoveState).leg_len →
      (fun _ : ℕ => 5) 1 = 0 →
      MovingStim.animate (fun _ => 5) 0 10 (0 + 2) 3 ⟨5, 5, 0, 1, 5, []⟩ =
        .raised { frame_counter := 0
                  leg_len := 0
                  error_count := 2
                  legs_used := 1 + 1
                  draws := 5
                  log_frames := [] ++ [3] }) :=
  C2_retry_once (fun _ => 5) 0 10 0 3 ⟨5, 5, 0, 1, 5, []⟩ rfl
    (by norm_num)

/-- C10: for any frame outside the half-open draw window, `animate` leaves
a static stimulus entirely unchanged (no draw, no timing or phase update)
and leaves a moving stimulus entirely unchanged (no position consumed,
frame counter and error counter keep their values, nothing drawn). -/
theorem C10_outside_window (p : StaticStim.AnimParams) (supply : ℕ → ℕ)
    (fuel frame : ℕ) (ss : StaticStim.State) (ms : MovingStim.MoveState)
    (start_stim : ℤ) (end_stim : ℚ)
    (hs : ¬ ((p.start_stim : ℚ) ≤ (frame : ℚ) ∧ (frame : ℚ) < p.end_stim))
    (hm : ¬ ((start_stim : ℚ) ≤ (frame : ℚ) ∧ (frame : ℚ) < end_stim)) :
    StaticStim.animate p frame ss = ss ∧
    MovingStim.animate supply start_stim end_stim (fuel + 1) frame ms =
      .ok ms := by
  constructor
  · rw [StaticStim.animate, if_neg hs]
  · rw [MovingStim.animate, if_neg hm]

/-- C10 witness: window `[5, 10)`, frame 0. -/
theorem C10_outside_window_witness :
    StaticStim.animate
        ⟨.uniform, .step, .both, 0, 0, 0, (0, 0), 5, 10, 5⟩ 0 ⟨0, (0, 0), 0⟩ =
      ⟨0, (0, 0), 0⟩ ∧
    MovingStim.animate (fun _ => 5) 5 10 (0 + 1) 0 ⟨0, 5, 0, 0, 0, []⟩ =
      .ok ⟨0, 5, 0, 0, 0, []⟩ :=
  C10_outside_window ⟨.uniform, .step, .both, 0, 0, 0, (0, 0), 5, 10, 5⟩
    (fun _ => 5) 0 0 ⟨0, (0, 0), 0⟩ ⟨0, 5, 0, 0, 0, []⟩ 5 10
    (by norm_num) (by norm_num)

/-- C7 (counterexample): with `numDirections = 7` the start angle advances
from leg 0 to leg 1 by the Python 2 integer division `360 / 7 = 51`
degrees, not by `360/7 ≈ 51.43` degrees. -/
theorem C7_counterexample :
    MovingStim.startDirSeq 0 7 1 - MovingStim.startDirSeq 0 7 0 = 51 ∧
    (51 : ℝ) ≠ 360 / 7 := by
  constructor
  · have h57 : ((360 / 7 : ℕ) : ℝ) = 51 := by norm_num
    show MovingStim.advance_dir 7 (MovingStim.startDirSeq 0 7 0) -
        MovingStim.startDirSeq 0 7 0 = 51
    rw [MovingStim.startDirSeq, MovingStim.advance_dir, h57]
    rw [if_neg (by norm_num)]
    norm_num
  · norm_num

/-- C7 (amended): for a radially moving stimulus with `numDirections = N ≥ 1`,
start radius `r ≥ 0`, speed > 0, delay ≥ 0, initial direction in `[0, 360)`
and `forceStop = 0`: the start angles advance by the integer division
`⌊360/N⌋` degrees per leg (mod 360; exactly `360/N` only when `N` divides
360); every leg's travel distance is `2r` (twice the start position's
distance from center) and its frame count is
`int(2r/speed + 0.99) + moveDelay`, the same for every leg; the sum of the
`N` per-leg frame counts equals `endFrame − startFrame` exactly (slack 0,
within the claimed `N`). -/
theorem C7_amended (delay r speed d0 : ℝ) (N mv : ℕ) (hN : 1 ≤ N)
    (hr : 0 ≤ r) (hsp : 0 < speed) (hd : 0 ≤ delay)
    (hd0 : 0 ≤ d0 ∧ d0 < 360) :
    (∀ k : ℕ,
      (0 ≤ MovingStim.startDirSeq d0 N k ∧ MovingStim.startDirSeq d0 N k < 360) ∧
      ∃ m : ℕ, d0 + k * ((360 / N : ℕ) : ℝ)
        = MovingStim.startDirSeq d0 N k + 360 * m) ∧
    (∀ k : ℕ,
      MovingStim.leg_travel_distance r (MovingStim.startDirSeq d0 N k) = 2 * r ∧
      MovingStim.leg_num_frames r speed (MovingStim.startDirSeq d0 N k) mv
        = pyIntR (2 * r / speed + 99/100) + mv) ∧
    (Finset.range N).sum
        (fun k => MovingStim.leg_num_frames r speed (MovingStim.startDirSeq d0 N k) mv)
      = N * MovingStim.leg_num_frames r speed d0 mv ∧
    (MovingStim.draw_times delay r speed d0 mv N 0).2
      = (((MovingStim.draw_times delay r speed d0 mv N 0).1
          + N * MovingStim.leg_num_frames r speed d0 mv : ℤ) : ℝ) := by
  have htd : ∀ dir : ℝ, MovingStim.leg_travel_distance r dir = 2 * r :=
    fun dir => MovingStim.leg_travel_distance_eq dir hr
  have hconst : ∀ dir : ℝ, MovingStim.leg_num_frames r speed dir mv
      = pyIntR (2 * r / speed + 99/100) + mv := by
    intro dir
    rw [MovingStim.leg_num_frames, htd]
  have hnf0 : 0 ≤ MovingStim.leg_num_frames r speed d0 mv := by
    rw [hconst]
    have harg : (0 : ℝ) ≤ 2 * r / speed + 99/100 := by positivity
    rw [pyIntR_of_nonneg harg]
    have : (0 : ℤ) ≤ ⌊(2 : ℝ) * r / speed + 99/100⌋ := Int.floor_nonneg.mpr harg
    omega
  have hs0 : 0 ≤ pyIntR (delay + 99/100) := by
    rw [pyIntR_of_nonneg (by linarith)]
    exact Int.floor_nonneg.mpr (by linarith)
  refine ⟨MovingStim.startDirSeq_spec d0 N hd0, fun k => ⟨htd _, hconst _⟩, ?_, ?_⟩
  · rw [Finset.sum_congr rfl (fun k _ => (hconst (MovingStim.startDirSeq d0 N k)).trans (hconst d0).symm)]
    rw [Finset.sum_const, Finset.card_range, nsmul_eq_mul]
  · show (if (0 : ℝ) ≠ 0 then (0 : ℝ) else _) = _
    rw [if_neg (by simp)]
    have hcast : ((MovingStim.leg_num_frames r speed d0 mv * N : ℤ) : ℝ)
          + ((pyIntR (delay + 99/100) : ℤ) : ℝ) + 99/100
        = ((MovingStim.leg_num_frames r speed d0 mv * N
            + pyIntR (delay + 99/100) : ℤ) : ℝ) + 99/100 := by
      push_cast
      ring
    rw [hcast, pyIntR_intCast_add (by positivity)]
    have hfst : (MovingStim.draw_times delay r speed d0 mv N 0).1
        = pyIntR (delay + 99/100) := rfl
    rw [hfst]
    push_cast
    ring

/-- C7 witness: radius 300, speed 10, 4 directions, no delay. -/
theorem C7_amended_witness :
    ((∀ k : ℕ,
      (0 ≤ MovingStim.startDirSeq 0 4 k ∧ MovingStim.startDirSeq 0 4 k < 360) ∧
      ∃ m : ℕ, 0 + k * ((360 / 4 : ℕ) : ℝ)
        = MovingStim.startDirSeq 0 4 k + 360 * m) ∧
    (∀ k : ℕ,
      MovingStim.leg_travel_distance 300 (MovingStim.startDirSeq 0 4 k) = 2 * 300 ∧
      MovingStim.leg_num_frames 300 10 (MovingStim.startDirSeq 0 4 k) 0
        = pyIntR (2 * 300 / 10 + 99/100) + 0) ∧
    (Finset.range 4).sum
        (fun k => MovingStim.leg_num_frames 300 10 (MovingStim.startDirSeq 0 4 k) 0)
      = 4 * MovingStim.leg_num_frames 300 10 0 0 ∧
    (MovingStim.draw_times 0 300 10 0 0 4 0).2
      = (((MovingStim.draw_times 0 300 10 0 0 4 0).1
          + 4 * MovingStim.leg_num_frames 300 10 0 0 : ℤ) : ℝ)) :=
  C7_amended 0 300 10 0 4 0 (by norm_num) (by norm_num) (by norm_num)
    (by norm_num) (by norm_num)

/-- C8 (counterexample): `move_random.randint(0, 360)` can return 360,
which is not in the half-open range `[0, 360)` — Python `randint` is
inclusive on both endpoints. -/
theorem C8_counterexample :
    pyRandint 0 360 360 = 360 ∧ (360 : ℤ) ∉ Finset.Ico (0 : ℤ) 360 := by
  decide

/-- C8 (amended): each leg of a randomly moving stimulus draws a uniformly
random integer angle from the *closed* range `[0, 360]` (361 values, each
attainable) using the dedicated move-seeded stream, and the leg's position
arrays start at the stimulus's current position (continuation), not at the
start radius. -/
theorem C8_amended (travel_distance speed cx cy : ℝ) (u : ℕ)
    (hnf : 1 ≤ pyIntR (travel_distance / speed + 99/100)) :
    (RandomlyMovingStim.gen_pos travel_distance speed cx cy u).angle
      ∈ Finset.Icc (0 : ℤ) 360 ∧
    (∀ a ∈ Finset.Icc (0 : ℤ) 360, ∃ v : ℕ, pyRandint 0 360 v = a) ∧
    (Finset.Icc (0 : ℤ) 360).card = 361 ∧
    (RandomlyMovingStim.gen_pos travel_distance speed cx cy u).x_array.getD 0 0
      = cx ∧
    (RandomlyMovingStim.gen_pos travel_distance speed cx cy u).y_array.getD 0 0
      = cy := by
  have hmod : ∀ v : ℕ, (v % ((360 : ℤ) - 0 + 1).toNat) < 361 := by
    intro v
    exact Nat.mod_lt v (by norm_num)
  have h0lt : 0 < (pyIntR (travel_distance / speed + 99/100)).toNat := by
    omega
  refine ⟨?_, ?_, ?_, ?_, ?_⟩
  · show pyRandint 0 360 u ∈ Finset.Icc (0 : ℤ) 360
    rw [Finset.mem_Icc, pyRandint]
    have := hmod u
    constructor
    · positivity
    · have : ((u % ((360 : ℤ) - 0 + 1).toNat : ℕ) : ℤ) ≤ 360 := by
        exact_mod_cast Nat.lt_succ_iff.mp (by simpa using hmod u)
      simpa using this
  · intro a ha
    rw [Finset.mem_Icc] at ha
    refine ⟨a.toNat, ?_⟩
    rw [pyRandint]
    have hlt : a.toNat < ((360 : ℤ) - 0 + 1).toNat := by omega
    rw [Nat.mod_eq_of_lt hlt]
    simp
    omega
  · simp [Int.card_Icc]
  · show (MovingStim.gen_pos_array speed cx cy
        (pyIntR (travel_distance / speed + 99/100)) _).1.getD 0 0 = cx
    rw [MovingStim.gen_pos_array]
    rw [List.getD_eq_getElem?_getD, List.getElem?_map,
      List.getElem?_range h0lt]
    simp
  · show (MovingStim.gen_pos_array speed cx cy
        (pyIntR (travel_distance / speed + 99/100)) _).2.getD 0 0 = cy
    rw [MovingStim.gen_pos_array]
    rw [List.getD_eq_getElem?_getD, List.getElem?_map,
      List.getElem?_range h0lt]
    simp

/-- C8 witness: travel distance 50, speed 10, current position (1, 2). -/
theorem C8_amended_witness :
    ((RandomlyMovingStim.gen_pos 50 10 1 2 0).angle
      ∈ Finset.Icc (0 : ℤ) 360 ∧
    (∀ a ∈ Finset.Icc (0 : ℤ) 360, ∃ v : ℕ, pyRandint 0 360 v = a) ∧
    (Finset.Icc (0 : ℤ) 360).card = 361 ∧
    (RandomlyMovingStim.gen_pos 50 10 1 2 0).x_array.getD 0 0 = 1 ∧
    (RandomlyMovingStim.gen_pos 50 10 1 2 0).y_array.getD 0 0 = 2) :=
  C8_amended 50 10 1 2 0 (by
    rw [pyIntR_of_nonneg (by norm_num)]
    have : ((5 : ℤ) : ℝ) + 99/100 ≤ (50 : ℝ)/10 + 99/100 := by norm_num
    have h5 : ⌊(50 : ℝ)/10 + 99/100⌋ = 5 := by
      rw [show (50 : ℝ)/10 + 99/100 = (5 : ℤ) + 99/100 by norm_num]
      rw [add_comm, Int.floor_add_int]
      norm_num
    omega)

/-- C4: if cancellation is requested during frame `f` (with `f` below the
repetition's total frame count) of repetition `k` of a run with no
stimulus exceptions, the loop stops with `count_frames = f + 1`,
repetition `k` is not counted as completed (`count_reps = k`), the run
does not end in error, and no event of any later repetition is ever
emitted. -/
theorem C4_cancellation (C : Main.Cfg) (k f : ℕ)
    (hth : ∀ r g i, C.throws r g i = false)
    (hk : k < C.reps) (hf : f < C.numFrames)
    (hbefore : ∀ r g, r < k → C.cancel r g = false)
    (hsame : ∀ g, g < f → C.cancel k g = false)
    (hcan : C.cancel k f = true) :
    (Main.pymain C).count_frames = f + 1 ∧
    (Main.pymain C).count_reps = k ∧
    (Main.pymain C).error = false ∧
    ∀ e ∈ (Main.pymain C).trace, Main.evRep e ≤ k := by
  obtain ⟨evs, hrun, hmem⟩ := Main.runReps_cancel_scenario C k f hth hf
    hbefore hsame hcan C.reps 0 ⟨0, false, 0, []⟩ 0 (by omega) (by omega) rfl
  have hk0 : 0 + (k - 0) = k := by omega
  rw [hk0] at hrun
  simp only [Main.pymain, hrun]
  refine ⟨rfl, rfl, rfl, ?_⟩
  intro e he
  simp at he
  rcases he with he | rfl
  · exact (hmem e he).1
  · simp [Main.evRep]

/-- C5: within one frame of the main loop that does not raise, the trace
appended for that frame is exactly: all `animate` calls of the active
stimuli, then the single flip, then (after the flip) the result of that
frame's trigger due-ness evaluation — so every update/draw precedes the
flip and the flip precedes the trigger check. -/
theorem C5_ordering (C : Main.Cfg) (rep frame : ℕ) (st : Main.St)
    (h : (Main.runFrame C rep frame st).2.1 = false) :
    ∃ A T,
      (Main.runFrame C rep frame st).1.trace
        = st.trace ++ A ++ [Main.Ev.flipEv rep frame] ++ T ∧
      (∀ e ∈ A, ∃ j, e = Main.Ev.animateEv rep frame j) ∧
      (T = [] ∨ T = [Main.Ev.triggerEv rep frame]) := by
  have h1 : (Main.animFrom C.throws rep frame 0 C.nStims).2 = false := by
    rw [← Main.runFrame_raised_eq]
    exact h
  refine ⟨(Main.animFrom C.throws rep frame 0 C.nStims).1, ?_⟩
  by_cases h2 : C.trigList[st.trigIndex]?.getD maxint = frame
  · refine ⟨[Main.Ev.triggerEv rep frame], ?_,
      fun e he => Main.animFrom_mem C.throws rep frame C.nStims 0 e he,
      Or.inr rfl⟩
    by_cases h3 : C.cancel rep frame
    · simp [Main.runFrame, h1, h2, h3, List.append_assoc]
    · by_cases h4 : st.shouldBreak <;>
        simp [Main.runFrame, h1, h2, h3, h4, List.append_assoc]
  · refine ⟨[], ?_,
      fun e he => Main.animFrom_mem C.throws rep frame C.nStims 0 e he,
      Or.inl rfl⟩
    by_cases h3 : C.cancel rep frame
    · simp [Main.runFrame, h1, h2, h3, List.append_assoc]
    · by_cases h4 : st.shouldBreak <;>
        simp [Main.runFrame, h1, h2, h3, h4, List.append_assoc]

/-- C9 (counterexample): a run whose only stimulus raises an unrecovered
exception at frame 0 returns with the error status and its trace contains
no final flip — the `except` clause returns before the final
`MyWindow.win.flip()`. -/
theorem C9_counterexample :
    (Main.pymain ⟨1, 1, 1, 0, [maxint], fun _ _ _ => true,
        fun _ _ => false⟩).error = true ∧
    Main.Ev.finalFlip ∉ (Main.pymain ⟨1, 1, 1, 0, [maxint],
        fun _ _ _ => true, fun _ _ => false⟩).trace := by
  decide

/-- C9 (amended): a run that ends without an error — normal completion or
a user-cancellation abort — always attempts one final flip (it is the
last emitted event); a run aborted by an unrecovered exception returns
the error status immediately and never attempts the final flip. -/
theorem C9_amended (C : Main.Cfg) :
    ((Main.pymain C).error = false →
      (Main.pymain C).trace.getLast? = some Main.Ev.finalFlip) ∧
    ((Main.pymain C).error = true →
      Main.Ev.finalFlip ∉ (Main.pymain C).trace) := by
  obtain ⟨evs, htr, hmem⟩ := Main.runReps_no_finalFlip C C.reps 0
    ⟨0, false, 0, []⟩ 0
  by_cases hres : (Main.runReps C 0 C.reps ⟨0, false, 0, []⟩ 0).error
  · constructor
    · intro herr
      rw [Main.pymain] at herr
      simp only [hres, if_true] at herr
      simp at herr
    · intro _
      simp only [Main.pymain, hres, if_true]
      rw [htr]
      intro hin
      exact hmem _ (by simpa using hin) rfl
  · constructor
    · intro _
      simp only [Main.pymain, hres, if_false]
      exact List.getLast?_concat _
    · intro herr
      rw [Main.pymain] at herr
      simp only [hres, if_false] at herr
      simp at herr


/-- C4 witness: 2 repetitions of 3 frames, escape pressed during frame 1
of repetition 0. -/
theorem C4_cancellation_witness :
    (Main.pymain ⟨2, 3, 1, 0, [maxint], fun _ _ _ => false,
        fun r g => r == 0 && g == 1⟩).count_frames = 1 + 1 ∧
    (Main.pymain ⟨2, 3, 1, 0, [maxint], fun _ _ _ => false,
        fun r g => r == 0 && g == 1⟩).count_reps = 0 ∧
    (Main.pymain ⟨2, 3, 1, 0, [maxint], fun _ _ _ => false,
        fun r g => r == 0 && g == 1⟩).error = false ∧
    ∀ e ∈ (Main.pymain ⟨2, 3, 1, 0, [maxint], fun _ _ _ => false,
        fun r g => r == 0 && g == 1⟩).trace, Main.evRep e ≤ 0 :=
  C4_cancellation ⟨2, 3, 1, 0, [maxint], fun _ _ _ => false,
      fun r g => r == 0 && g == 1⟩ 0 1
    (fun _ _ _ => rfl) (by norm_num) (by norm_num)
    (fun r _ hr => absurd hr (by omega))
    (fun g hg => by
      have : g = 0 := by omega
      subst this
      rfl)
    rfl

/-- C5 witness: one frame with two stimuli and a due trigger at frame 0. -/
theorem C5_ordering_witness :
    ∃ A T,
      (Main.runFrame ⟨1, 2, 2, 0, [0, maxint], fun _ _ _ => false,
          fun _ _ => false⟩ 0 0 ⟨0, false, 0, []⟩).1.trace
        = (⟨0, false, 0, []⟩ : Main.St).trace ++ A
            ++ [Main.Ev.flipEv 0 0] ++ T ∧
      (∀ e ∈ A, ∃ j, e = Main.Ev.animateEv 0 0 j) ∧
      (T = [] ∨ T = [Main.Ev.triggerEv 0 0]) :=
  C5_ordering ⟨1, 2, 2, 0, [0, maxint], fun _ _ _ => false,
      fun _ _ => false⟩ 0 0 ⟨0, false, 0, []⟩ rfl

/-- C9 witness: a clean one-repetition run ends with the final flip. -/
theorem C9_amended_witness :
    (Main.pymain ⟨1, 1, 1, 0, [maxint], fun _ _ _ => false,
        fun _ _ => false⟩).trace.getLast? = some Main.Ev.finalFlip :=
  (C9_amended ⟨1, 1, 1, 0, [maxint], fun _ _ _ => false,
      fun _ _ => false⟩).1 rfl

end Claims
